import Mathlib

/-!
# File manager (`golang_files`): handlers over a single-table record store

A shallow embedding of `handlers/file.go` and `models/file.go`.

The handlers are translated statement by statement.  The calls they make into
libraries that are not part of the repository (GORM over SQLite, `encoding/json`,
`time`, `path/filepath`, `archive/zip`, `os`) are modelled by their documented
behaviour; whether such a call fails for reasons outside the program (disk, database
connection) is an explicit input of the handler, carried in an environment record.
-/

namespace GolangFiles

/-! ## Data model (`models/file.go`) -/

/-- A `time.Time` value, as its civil UTC reading. -/
structure Time where
  year : Nat
  month : Nat
  day : Nat
  hour : Nat
  minute : Nat
  second : Nat
  nsec : Nat
deriving DecidableEq, Repr

/-- The zero `time.Time` (January 1, year 1, 00:00:00 UTC). -/
def Time.zero : Time := ⟨1, 1, 1, 0, 0, 0, 0⟩

/-- The struct `models.File`: the four fields of the embedded `gorm.Model`
(`ID`, `CreatedAt`, `UpdatedAt`, `DeletedAt`) followed by the six declared fields.
`DeletedAt` is `none` when the `gorm.DeletedAt` is not valid (SQL NULL). -/
structure File where
  ID : Nat
  CreatedAt : Time
  UpdatedAt : Time
  DeletedAt : Option Time
  Name : String
  Path : String
  Size : Int
  RecordedAt : Time
  UUID : String
  Duration : Int
deriving DecidableEq, Repr

/-- The value of `var file models.File`: every field zero. -/
def File.zero : File :=
  { ID := 0, CreatedAt := Time.zero, UpdatedAt := Time.zero, DeletedAt := none,
    Name := "", Path := "", Size := 0, RecordedAt := Time.zero, UUID := "", Duration := 0 }

/-- A row is active when its deletion marker is NULL. -/
def File.active (f : File) : Bool := f.DeletedAt.isNone

/-! ## Record store (`database.DB`, a GORM handle over the table of `models.File`) -/

/-- The table: its rows in rowid order of insertion, and the AUTOINCREMENT counter
(the largest id handed out so far). -/
structure Store where
  rows : List File
  seq : Nat
deriving DecidableEq, Repr

/-- Errors a GORM call reports: `gorm.ErrRecordNotFound`, or any other failure of the
underlying database. -/
inductive DBError
  | recordNotFound
  | failure
deriving DecidableEq, Repr

/-- Outcomes of the calls a query or mutation handler makes outside the program. -/
structure Env where
  /-- The database clock GORM stamps rows with. -/
  dbNow : Time
  /-- `DB.First` fails on the underlying database. -/
  firstFails : Bool
  /-- `DB.Find` fails on the underlying database. -/
  findFails : Bool
  /-- `DB.Save` fails on the underlying database. -/
  saveFails : Bool
  /-- `DB.Delete` fails on the underlying database. -/
  deleteFails : Bool
  /-- `DB.Create` fails on the underlying database. -/
  createFails : Bool
  /-- The RFC 3339 reading `time.Time.UnmarshalJSON` gives to the text of a JSON
  string, `none` when it rejects it. -/
  parseRFC3339 : String → Option Time

/-- `DB.First(&file, id)`: the first row with primary key `id` whose deletion marker is
NULL (the soft-delete scope GORM adds for a model with a `DeletedAt` field);
`ErrRecordNotFound` when there is none. -/
def dbFirst (env : Env) (s : Store) (id : Nat) : Except DBError File :=
  if env.firstFails then .error .failure
  else match s.rows.find? (fun r => r.ID == id && r.active) with
    | some r => .ok r
    | none => .error .recordNotFound

/-- `DB.Find(&files)`: every row whose deletion marker is NULL. -/
def dbFind (env : Env) (s : Store) : Except DBError (List File) :=
  if env.findFails then .error .failure
  else .ok (s.rows.filter File.active)

/-- `DB.Create(&f)` for a value whose primary key is zero: the row gets the next
AUTOINCREMENT id, and `CreatedAt` and `UpdatedAt` are stamped when they are zero. -/
def dbCreate (fails : Bool) (now : Time) (s : Store) (f : File) : Except DBError (Store × File) :=
  if fails then .error .failure
  else
    let row : File :=
      { f with
        ID := s.seq + 1
        CreatedAt := if f.CreatedAt = Time.zero then now else f.CreatedAt
        UpdatedAt := if f.UpdatedAt = Time.zero then now else f.UpdatedAt }
    .ok ({ rows := s.rows ++ [row], seq := s.seq + 1 }, row)

/-- The effect of `UPDATE ... SET <all columns> WHERE id = ? AND deleted_at IS NULL` on one
row, `f1` being the values written. -/
def overwriteActive (id : Nat) (f1 : File) (r : File) : File :=
  if r.ID == id && r.active then f1 else r

/-- `DB.Save(&f)`.  With a zero primary key it is `Create`.  Otherwise it issues
`UPDATE ... SET <all columns> WHERE id = f.ID AND deleted_at IS NULL`, stamping
`UpdatedAt`; when that touches no row it falls back to an insert with
`ON CONFLICT (id) DO UPDATE`, which overwrites a soft-deleted row with that id
(keeping its `created_at`) or inserts a new row carrying that id. -/
def dbSave (env : Env) (s : Store) (f : File) : Except DBError (Store × File) :=
  if env.saveFails then .error .failure
  else if f.ID = 0 then dbCreate false env.dbNow s f
  else
    let f1 : File := { f with UpdatedAt := env.dbNow }
    if s.rows.any (fun r => r.ID == f.ID && r.active) then
      .ok ({ s with rows := s.rows.map (overwriteActive f.ID f1) }, f1)
    else if s.rows.any (fun r => r.ID == f.ID) then
      let rows1 := s.rows.map (fun r => if r.ID == f.ID then { f1 with CreatedAt := r.CreatedAt } else r)
      .ok ({ s with rows := rows1 }, f1)
    else
      let f2 : File :=
        { f1 with CreatedAt := if f.CreatedAt = Time.zero then env.dbNow else f.CreatedAt }
      .ok ({ rows := s.rows ++ [f2], seq := max s.seq f.ID }, f2)

/-- The effect of `UPDATE ... SET deleted_at = now WHERE id = ? AND deleted_at IS NULL`
on one row. -/
def softDelete (id : Nat) (now : Time) (r : File) : File :=
  if r.ID == id && r.active then { r with DeletedAt := some now } else r

/-- `DB.Delete(&f)` on a model with a `DeletedAt` field: a soft delete,
`UPDATE ... SET deleted_at = now WHERE id = f.ID AND deleted_at IS NULL`.
No row is removed.  With a zero primary key GORM has no condition to delete by and
reports `ErrMissingWhereClause`. -/
def dbDelete (env : Env) (s : Store) (f : File) : Except DBError Store :=
  if env.deleteFails then .error .failure
  else if f.ID = 0 then .error .failure
  else .ok { s with rows := s.rows.map (softDelete f.ID env.dbNow) }

/-! ## Request bodies (`encoding/json` decoding into a `models.File`) -/

/-- A JSON value as `encoding/json` scans it.  A number literal that is a plain integer
is `num`; one with a fraction or an exponent is `numOther`. -/
inductive JVal
  | null
  | bool (b : Bool)
  | num (n : Int)
  | numOther
  | str (s : String)
  | arr (xs : List JVal)
  | obj (members : List (String × JVal))

/-- The fields of `models.File` that `encoding/json` can address. -/
inductive Field
  | ID | CreatedAt | UpdatedAt | DeletedAt
  | name | path | size | recorded_at | uuid | duration
deriving DecidableEq, Repr

/-- The JSON key of each field: the Go field name for the untagged fields promoted from
`gorm.Model`, the `json:"..."` tag for the others. -/
def fieldKeys : List (String × Field) :=
  [("ID", .ID), ("CreatedAt", .CreatedAt), ("UpdatedAt", .UpdatedAt), ("DeletedAt", .DeletedAt),
   ("name", .name), ("path", .path), ("size", .size), ("recorded_at", .recorded_at),
   ("uuid", .uuid), ("duration", .duration)]

/-- Unicode simple case folding, as far as it can reach an ASCII letter: upper-case ASCII,
the Kelvin sign (U+212A) and the long s (U+017F). -/
def foldChar (c : Char) : Char :=
  if c.toNat = 0x212A then 'k'
  else if c.toNat = 0x017F then 's'
  else if c.isUpper then c.toLower
  else c

/-- The folded form of a key, compared when no field matches exactly. -/
def foldKey (k : String) : List Char := k.toList.map foldChar

/-- The field an object key addresses: an exact match of the key first, then a
case-insensitive one; `none` for a key that addresses no field (its value is skipped). -/
def lookupField (k : String) : Option Field :=
  match fieldKeys.find? (fun p => p.1 == k) with
  | some p => some p.2
  | none => (fieldKeys.find? (fun p => foldKey p.1 == foldKey k)).map Prod.snd

/-- Storing one member value into the field it addresses.  JSON `null` leaves a field
as it is, except that `gorm.DeletedAt` reads it as "not deleted".  A string goes into a
string field, an integer literal in range into an `int64` or `uint` field, a string
that reads as an RFC 3339 instant into a time field.  Anything else is an error (`none`). -/
def decodeField (parse : String → Option Time) (f : File) : Field → JVal → Option File
  | .DeletedAt, .null => some { f with DeletedAt := none }
  | _, .null => some f
  | .ID, .num n => if 0 ≤ n ∧ n < 2 ^ 64 then some { f with ID := n.toNat } else none
  | .CreatedAt, .str s => (parse s).map (fun t => { f with CreatedAt := t })
  | .UpdatedAt, .str s => (parse s).map (fun t => { f with UpdatedAt := t })
  | .DeletedAt, .str s => (parse s).map (fun t => { f with DeletedAt := some t })
  | .name, .str s => some { f with Name := s }
  | .path, .str s => some { f with Path := s }
  | .size, .num n => if -(2 ^ 63) ≤ n ∧ n < 2 ^ 63 then some { f with Size := n } else none
  | .recorded_at, .str s => (parse s).map (fun t => { f with RecordedAt := t })
  | .uuid, .str s => some { f with UUID := s }
  | .duration, .num n => if -(2 ^ 63) ≤ n ∧ n < 2 ^ 63 then some { f with Duration := n } else none
  | _, _ => none

/-- Decoding the members of an object, in order, into `f`: each member that addresses a
field is stored into it, the others are skipped.  The struct the decoder is given is
the starting point, so a field no member addresses keeps the value it had.
The result is `none` as soon as one member is in error (the handler discards the
struct in that case). -/
def decodeMembers (parse : String → Option Time) (f : File) : List (String × JVal) → Option File
  | [] => some f
  | (k, v) :: rest =>
    match lookupField k with
    | none => decodeMembers parse f rest
    | some fld =>
      match decodeField parse f fld v with
      | none => none
      | some f1 => decodeMembers parse f1 rest

/-- The call `json.NewDecoder(r.Body).Decode(&file)`.  The body is the first JSON value of the
request body, `none` when the body does not start with a well-formed one.
A top-level `null` stores nothing; any value other than an object or `null` is an error. -/
def decodeInto (parse : String → Option Time) (f : File) : Option JVal → Option File
  | none => none
  | some .null => some f
  | some (.obj members) => decodeMembers parse f members
  | some _ => none

/-! ## Responses -/

/-- What a handler writes to the `http.ResponseWriter`. -/
inductive Response
  /-- `http.NotFound`: status 404. -/
  | notFound
  /-- `http.Error(..., http.StatusBadRequest)`: status 400. -/
  | badRequest
  /-- `http.Error(..., http.StatusInternalServerError)`: status 500. -/
  | internalError
  /-- Status 200 with the JSON encoding of a record. -/
  | json (f : File)
  /-- Status 200 with the JSON object whose `message` is `File deleted`. -/
  | deleted
  /-- `http.Redirect(..., http.StatusFound)`: status 302 to the given location. -/
  | redirect (location : String)
  /-- Status 200 with the `files.html` listing of the given records. -/
  | listing (files : List File)
deriving DecidableEq, Repr

/-! ## Query and mutation handlers -/

/-- `GetFiles`. -/
def GetFiles (env : Env) (s : Store) : Response :=
  match dbFind env s with
  | .error _ => .internalError
  | .ok files => .listing files

/-- `GetFile`. -/
def GetFile (env : Env) (s : Store) (id : Nat) : Response :=
  match dbFirst env s id with
  | .error _ => .notFound
  | .ok file => .json file

/-- `UpdateFile`: fetch the record, decode the body into the fetched struct, save it. -/
def UpdateFile (env : Env) (s : Store) (id : Nat) (body : Option JVal) : Store × Response :=
  match dbFirst env s id with
  | .error _ => (s, .notFound)
  | .ok file =>
    match decodeInto env.parseRFC3339 file body with
    | none => (s, .badRequest)
    | some file1 =>
      match dbSave env s file1 with
      | .error _ => (s, .internalError)
      | .ok (s1, file2) => (s1, .json file2)

/-- `DeleteFile`. -/
def DeleteFile (env : Env) (s : Store) (id : Nat) : Store × Response :=
  match dbFirst env s id with
  | .error _ => (s, .notFound)
  | .ok file =>
    match dbDelete env s file with
    | .error _ => (s, .internalError)
    | .ok s1 => (s1, .deleted)

/-! ## Upload handler -/

/-- The `isDigit(s, i)` of package `time`, at the head of what is left to read. -/
def isDigit (c : Char) : Bool := '0' ≤ c && c ≤ '9'

/-- The value of a digit, `c - '0'`. -/
def digitVal (c : Char) : Nat := c.toNat - '0'.toNat

/-- `getnum(s, fixed)` of package `time`: a one- or two-digit number at the head of `s`
and the rest of `s`; with `fixed`, two digits are required. -/
def getnum : List Char → Bool → Option (Nat × List Char)
  | [], _ => none
  | [c], fixed =>
    if !isDigit c then none
    else if fixed then none
    else some (digitVal c, [])
  | c :: d :: rest, fixed =>
    if !isDigit c then none
    else if !isDigit d then
      if fixed then none else some (digitVal c, d :: rest)
    else some (digitVal c * 10 + digitVal d, rest)

/-- The four-digit year the layout element `2006` reads. -/
def getYear : List Char → Option (Nat × List Char)
  | a :: b :: c :: d :: rest =>
    if isDigit a && isDigit b && isDigit c && isDigit d then
      some (digitVal a * 1000 + digitVal b * 100 + digitVal c * 10 + digitVal d, rest)
    else none
  | _ => none

/-- A literal character of the layout. -/
def skipChar (lit : Char) : List Char → Option (List Char)
  | c :: rest => if c = lit then some rest else none
  | [] => none

/-- The `isLeap` of package `time`. -/
def isLeap (year : Nat) : Bool := year % 4 == 0 && (year % 100 != 0 || year % 400 == 0)

/-- The `daysIn` of package `time`. -/
def daysIn (month year : Nat) : Nat :=
  if month == 2 then (if isLeap year then 29 else 28)
  else if month == 4 || month == 6 || month == 9 || month == 11 then 30
  else 31

/-- The call `time.Parse("2006-01-02T15:04", value)`: a four-digit year, `-`, a two-digit
month in 1..12, `-`, a two-digit day, `T`, a one- or two-digit hour below 24, `:`, a
two-digit minute below 60, and nothing after it; the day is checked against the month
once everything is read.  The result is in UTC with zero seconds. -/
def timeParse (value : String) : Option Time :=
  (getYear value.toList).bind fun (year, v1) =>
  (skipChar '-' v1).bind fun v2 =>
  (getnum v2 true).bind fun (month, v3) =>
  if month = 0 ∨ 12 < month then none else
  (skipChar '-' v3).bind fun v4 =>
  (getnum v4 true).bind fun (day, v5) =>
  (skipChar 'T' v5).bind fun v6 =>
  (getnum v6 false).bind fun (hour, v7) =>
  if 24 ≤ hour then none else
  (skipChar ':' v7).bind fun v8 =>
  (getnum v8 true).bind fun (min, v9) =>
  if 60 ≤ min then none else
  if v9 ≠ [] then none else
  if day < 1 ∨ daysIn month year < day then none else
  some ⟨year, month, day, hour, min, 0, 0⟩

/-- The file part of a multipart form: `header.Filename` and `header.Size`. -/
structure FileHeader where
  Filename : String
  Size : Int
deriving DecidableEq, Repr

/-- The request `CreateFile` reads. -/
structure CreateRequest where
  /-- The part `r.FormFile("file")` returns, `none` when it returns an error. -/
  file : Option FileHeader
  /-- `r.FormValue("name")`: the empty string when the field is absent. -/
  name : String
  /-- `r.FormValue("recorded_at")`: the empty string when the field is absent. -/
  recorded_at : String
deriving DecidableEq, Repr

/-- Outcomes of the calls `CreateFile` makes outside the program. -/
structure UploadEnv where
  /-- `os.Create(dst)` fails. -/
  osCreateFails : Bool
  /-- `io.Copy(out, file)` fails. -/
  copyFails : Bool
  /-- `DB.Create` fails. -/
  createFails : Bool
  /-- The value of `time.Now()`. -/
  now : Time
  /-- The database clock GORM stamps rows with. -/
  dbNow : Time
deriving DecidableEq, Repr

/-- What `CreateFile` and `CreateImport` leave behind: the table, the paths handed to a
successful `os.Create` (in order), and the response. -/
structure Outcome where
  store : Store
  created : List String
  resp : Response
deriving DecidableEq, Repr

/-- `CreateFile`. -/
def CreateFile (env : UploadEnv) (s : Store) (r : CreateRequest) : Outcome :=
  match r.file with
  | none => ⟨s, [], .badRequest⟩
  | some header =>
    let filename := header.Filename
    let dst := "uploads/" ++ filename
    if env.osCreateFails then ⟨s, [], .internalError⟩
    else if env.copyFails then ⟨s, [dst], .internalError⟩
    else
      let name := if r.name = "" then filename else r.name
      let recordedAtStr := r.recorded_at
      let recordedAt :=
        if recordedAtStr ≠ "" then
          match timeParse recordedAtStr with
          | some parsed => parsed
          | none => env.now
        else env.now
      let fileModel : File :=
        { File.zero with Name := name, Path := dst, Size := header.Size, RecordedAt := recordedAt }
      match dbCreate env.createFails env.dbNow s fileModel with
      | .error _ => ⟨s, [dst], .internalError⟩
      | .ok (s1, _) => ⟨s1, [dst], .redirect "/files"⟩

/-! ## Import handler -/

/-- `os.IsPathSeparator` on Unix. -/
def isSep (c : Char) : Bool := c = '/'

/-- The test `r+k == n || os.IsPathSeparator(path[r+k])` on what is left from `r+k` on. -/
def atEndOrSep : List Char → Bool
  | [] => true
  | c :: _ => isSep c

/-- The inner loop of the `..` case of `filepath.Clean`, entered after `out.w--`:
`for out.w > dotdot && !os.IsPathSeparator(out.index(out.w)) { out.w-- }`.
It returns the final `out.w`. -/
def backtrack (out : List Char) (dotdot : Nat) : Nat → Nat
  | 0 => 0
  | w + 1 => if w + 1 > dotdot && !isSep (out.getD (w + 1) '/') then backtrack out dotdot w else w + 1

/-- The main loop of `filepath.Clean` (`for r < n`), on the unread part of the path, the
buffer written so far (`out.w` is its length) and `dotdot`.  Each turn reads at least one
byte, so the length of the path is enough fuel. -/
def cleanLoop (rooted : Bool) : Nat → List Char → List Char → Nat → List Char
  | 0, _, out, _ => out
  | fuel + 1, p, out, dotdot =>
    match p with
    | [] => out
    | c :: rest =>
      if isSep c then
        -- empty path element
        cleanLoop rooted fuel rest out dotdot
      else if c = '.' && atEndOrSep rest then
        -- . element
        cleanLoop rooted fuel rest out dotdot
      else if c = '.' && rest.head? = some '.' && atEndOrSep (rest.drop 1) then
        -- .. element: remove to last separator
        if out.length > dotdot then
          cleanLoop rooted fuel (rest.drop 1) (out.take (backtrack out dotdot (out.length - 1))) dotdot
        else if !rooted then
          let out1 := if out.length > 0 then out ++ ['/'] else out
          let out2 := out1 ++ ['.', '.']
          cleanLoop rooted fuel (rest.drop 1) out2 out2.length
        else cleanLoop rooted fuel (rest.drop 1) out dotdot
      else
        -- real path element: add slash if needed, copy element
        let out1 :=
          if (rooted && out.length != 1) || (!rooted && out.length != 0) then out ++ ['/'] else out
        cleanLoop rooted fuel (p.dropWhile (fun x => !isSep x)) (out1 ++ p.takeWhile (fun x => !isSep x)) dotdot

/-- `filepath.Clean` on Unix (no volume name). -/
def filepathClean (path : String) : String :=
  match path.toList with
  | [] => "."
  | c :: rest =>
    let rooted := isSep c
    let out :=
      if rooted then cleanLoop true rest.length rest ['/'] 1
      else cleanLoop false (c :: rest).length (c :: rest) [] 0
    if out.length = 0 then "." else String.mk out

/-- `filepath.Join(a, b)` on Unix: the elements from the first non-empty one on, joined
by `/` and cleaned; the empty string when both are empty. -/
def filepathJoin (a b : String) : String :=
  if a ≠ "" then filepathClean (a ++ "/" ++ b)
  else if b ≠ "" then filepathClean b
  else ""

/-- An entry of the archive (a `*zip.File`), as far as the handler reads it. -/
structure ZipEntry where
  /-- `f.Name`. -/
  Name : String
  /-- The directory bit of the mode the entry's external attributes encode. -/
  modeDir : Bool
  /-- `f.FileInfo().Size()`: the uncompressed size. -/
  size : Int
deriving DecidableEq, Repr

/-- `f.FileInfo().IsDir()`: the mode of a zip entry has the directory bit when its
attributes say so or when its name ends in `/`. -/
def ZipEntry.IsDir (f : ZipEntry) : Bool :=
  f.modeDir || f.Name.toList.getLast? == some '/'

/-- Outcomes of the calls the import loop makes outside the program for one entry. -/
structure EntryEnv where
  /-- `f.Open()` fails. -/
  openFails : Bool
  /-- `os.MkdirAll(filepath.Dir(dst), 0755)` fails. -/
  mkdirFails : Bool
  /-- `os.Create(dst)` fails. -/
  createFails : Bool
  /-- `io.Copy(out, rc)` fails. -/
  copyFails : Bool
  /-- `DB.Create` fails. -/
  dbCreateFails : Bool
  /-- The value of `time.Now()`. -/
  now : Time
  /-- The database clock GORM stamps rows with. -/
  dbNow : Time
deriving DecidableEq, Repr

/-- The body of the loop `for _, f := range rZip.File`, on the table and the list of
files created on disk so far. -/
def importEntry (env : EntryEnv) (f : ZipEntry) (st : Store × List String) : Store × List String :=
  if f.IsDir || f.Name == "manifest.json" then st
  else if env.openFails then st
  else
    let dst := filepathJoin "uploads" f.Name
    if env.mkdirFails then st
    else if env.createFails then st
    else if env.copyFails then (st.1, st.2 ++ [dst])
    else
      let duration : Int := 0
      let fileModel : File :=
        { File.zero with
          Name := f.Name, Path := dst, Size := f.size, RecordedAt := env.now, Duration := duration }
      match dbCreate env.dbCreateFails env.dbNow st.1 fileModel with
      | .error _ => (st.1, st.2 ++ [dst])
      | .ok (s1, _) => (s1, st.2 ++ [dst])

/-- The loop over `rZip.File`; the entry at index `i` meets the outcomes `env i`. -/
def importLoop (env : Nat → EntryEnv) : Nat → List ZipEntry → Store × List String → Store × List String
  | _, [], st => st
  | i, f :: fs, st => importLoop env (i + 1) fs (importEntry (env i) f st)

/-- The request `CreateImport` reads. -/
structure ImportRequest where
  /-- Whether `r.FormFile("file")` returns a part. -/
  hasFile : Bool
  /-- The entries `zip.OpenReader` finds in the uploaded bytes (`rZip.File`), `none` when
  it rejects them. -/
  archive : Option (List ZipEntry)
deriving DecidableEq, Repr

/-- Outcomes of the calls `CreateImport` makes outside the program. -/
structure ImportEnv where
  /-- `os.CreateTemp` fails. -/
  createTempFails : Bool
  /-- `os.Create(tempFile.Name())` fails. -/
  osCreateFails : Bool
  /-- `io.Copy(out, file)` fails. -/
  copyFails : Bool
  /-- The outcomes met by the entry at each index of the archive. -/
  entry : Nat → EntryEnv

/-- `CreateImport`.  The temporary file is removed on every path and is not listed among
the files created. -/
def CreateImport (env : ImportEnv) (s : Store) (r : ImportRequest) : Outcome :=
  if !r.hasFile then ⟨s, [], .badRequest⟩
  else if env.createTempFails then ⟨s, [], .internalError⟩
  else if env.osCreateFails then ⟨s, [], .internalError⟩
  else if env.copyFails then ⟨s, [], .internalError⟩
  else
    match r.archive with
    | none => ⟨s, [], .badRequest⟩
    | some files =>
      let st := importLoop env.entry 0 files (s, [])
      ⟨st.1, st.2, .redirect "/files"⟩

/-! ## Observing the fields of a record -/

/-- The value held by a field of a record. -/
inductive FieldVal
  | nat (n : Nat)
  | int (n : Int)
  | text (s : String)
  | time (t : Time)
  | optTime (t : Option Time)
deriving DecidableEq, Repr

/-- The value a record holds in the given field. -/
def File.get (f : File) : Field → FieldVal
  | .ID => .nat f.ID
  | .CreatedAt => .time f.CreatedAt
  | .UpdatedAt => .time f.UpdatedAt
  | .DeletedAt => .optTime f.DeletedAt
  | .name => .text f.Name
  | .path => .text f.Path
  | .size => .int f.Size
  | .recorded_at => .time f.RecordedAt
  | .uuid => .text f.UUID
  | .duration => .int f.Duration

/-- The fields the data model calls mutable. -/
def mutableFields : List Field := [.name, .path, .size, .recorded_at, .uuid, .duration]

/-- Whether a JSON value is `null`. -/
def JVal.isNull : JVal → Bool
  | .null => true
  | _ => false

/-- Whether a list of object members has one that addresses the field with a value
other than `null`. -/
def carriesList (fld : Field) (ms : List (String × JVal)) : Bool :=
  ms.any (fun kv => lookupField kv.1 == some fld && !kv.2.isNull)

/-- Whether a body carries a value for the field: it is an object with a member that
addresses the field and whose value is not `null`. -/
def carries (fld : Field) : Option JVal → Bool
  | some (.obj ms) => carriesList fld ms
  | _ => false

/-! ## The textual form of a timestamp -/

/-- The character of a decimal digit. -/
def digitChar (n : Nat) : Char := Char.ofNat (48 + n)

/-- A number below 100 written with two digits. -/
def twoDigits (n : Nat) : List Char := [digitChar (n / 10), digitChar (n % 10)]

/-- A number below 10000 written with four digits. -/
def fourDigits (n : Nat) : List Char :=
  [digitChar (n / 1000), digitChar (n / 100 % 10), digitChar (n / 10 % 10), digitChar (n % 10)]

/-- The form `YYYY-MM-DDTHH:MM` of a civil date and time of day. -/
def stampText (year month day hour minute : Nat) : String :=
  String.mk (fourDigits year ++ ('-' :: (twoDigits month ++ ('-' :: (twoDigits day
    ++ ('T' :: (twoDigits hour ++ (':' :: twoDigits minute))))))))

/-- A civil date and time of day that exists and fits the form `YYYY-MM-DDTHH:MM`. -/
def validStamp (year month day hour minute : Nat) : Prop :=
  year < 10000 ∧ 1 ≤ month ∧ month ≤ 12 ∧ 1 ≤ day ∧ day ≤ daysIn month year ∧
  hour < 24 ∧ minute < 60

/-! ## Reading the outcome of an import -/

/-- An entry the loop does not skip: neither a directory entry nor named exactly
`manifest.json`. -/
def ZipEntry.eligible (f : ZipEntry) : Bool := !(f.IsDir || f.Name == "manifest.json")

/-- The entry is extracted: open, directory creation, file creation and copy all succeed. -/
def EntryEnv.extracts (env : EntryEnv) : Bool :=
  !env.openFails && !env.mkdirFails && !env.createFails && !env.copyFails

/-- The record of an extracted entry is stored: `DB.Create` succeeds. -/
def EntryEnv.stores (env : EntryEnv) : Bool := !env.dbCreateFails

/-- The record the loop builds for an entry, as the table stamps it, before it is given
its id. -/
def importedRecord (env : EntryEnv) (f : ZipEntry) : File :=
  { File.zero with
    CreatedAt := env.dbNow, UpdatedAt := env.dbNow,
    Name := f.Name, Path := filepathJoin "uploads" f.Name, Size := f.size,
    RecordedAt := env.now, Duration := 0 }

/-- A record with its id blanked, to compare records up to the id. -/
def File.withoutID (f : File) : File := { f with ID := 0 }

/-- The entries of an archive, by index, that are eligible, extracted and stored. -/
def storedEntries (env : Nat → EntryEnv) (i : Nat) (files : List ZipEntry) : List (Nat × ZipEntry) :=
  (files.enumFrom i).filter
    (fun p => p.2.eligible && (env p.1).extracts && (env p.1).stores)

/-- A path that is the storage root `uploads` or lies below it. -/
def underUploads (path : String) : Bool :=
  path == "uploads" || "uploads/".toList.isPrefixOf path.toList

/-! ## Sample inputs -/

/-- An instant used as "earlier". -/
def sampleT0 : Time := ⟨2024, 1, 1, 0, 0, 0, 0⟩

/-- An instant used as "now". -/
def sampleT1 : Time := ⟨2024, 6, 1, 12, 0, 0, 0⟩

/-- An environment in which no external call fails.  The sample bodies carry no
timestamp string, so the RFC 3339 reader is never consulted on them. -/
def sampleEnv : Env :=
  { dbNow := sampleT1, firstFails := false, findFails := false, saveFails := false,
    deleteFails := false, createFails := false, parseRFC3339 := fun _ => none }

/-- An active record with id 1. -/
def rowA : File :=
  { ID := 1, CreatedAt := sampleT0, UpdatedAt := sampleT0, DeletedAt := none,
    Name := "a.txt", Path := "uploads/a.txt", Size := 3, RecordedAt := sampleT0,
    UUID := "", Duration := 0 }

/-- An active record with id 2. -/
def rowB : File :=
  { ID := 2, CreatedAt := sampleT0, UpdatedAt := sampleT0, DeletedAt := none,
    Name := "b.txt", Path := "uploads/b.txt", Size := 5, RecordedAt := sampleT0,
    UUID := "", Duration := 0 }

/-- A soft-deleted record with id 3. -/
def rowGone : File :=
  { ID := 3, CreatedAt := sampleT0, UpdatedAt := sampleT0, DeletedAt := some sampleT0,
    Name := "c.txt", Path := "uploads/c.txt", Size := 7, RecordedAt := sampleT0,
    UUID := "", Duration := 0 }

/-- A table holding the three sample records. -/
def sampleStore : Store := ⟨[rowA, rowB, rowGone], 3⟩

/-- The body `{"name": "renamed"}`. -/
def bodyRename : Option JVal := some (.obj [("name", .str "renamed")])

/-- A body that is not JSON at all, such as the text `not json`. -/
def bodyGarbage : Option JVal := none

/-- The body `{"size": "big"}`: well-formed JSON, but a string where an integer is due. -/
def bodyBadSize : Option JVal := some (.obj [("size", .str "big")])

/-- The body `{"ID": 2, "name": "x"}`. -/
def bodyOtherId : Option JVal := some (.obj [("ID", .num 2), ("name", .str "x")])

/-- An upload environment in which no external call fails. -/
def sampleUploadEnv : UploadEnv :=
  { osCreateFails := false, copyFails := false, createFails := false,
    now := sampleT1, dbNow := sampleT1 }

/-- An upload of `clip.mp4` (10 bytes) with no `name` and no `recorded_at` field. -/
def uploadPlain : CreateRequest :=
  { file := some ⟨"clip.mp4", 10⟩, name := "", recorded_at := "" }

/-- An upload of `clip.mp4` with `name=Holiday` and `recorded_at=2024-03-01T10:00`. -/
def uploadNamed : CreateRequest :=
  { file := some ⟨"clip.mp4", 10⟩, name := "Holiday", recorded_at := "2024-03-01T10:00" }

/-- Per-entry outcomes in which nothing fails. -/
def entryOk : EntryEnv :=
  { openFails := false, mkdirFails := false, createFails := false, copyFails := false,
    dbCreateFails := false, now := sampleT1, dbNow := sampleT1 }

/-- An import environment in which no external call fails. -/
def sampleImportEnv : ImportEnv :=
  { createTempFails := false, osCreateFails := false, copyFails := false,
    entry := fun _ => entryOk }

/-- An import environment in which creating the file of the entry at index 2 fails. -/
def thirdEntryFails : ImportEnv :=
  { createTempFails := false, osCreateFails := false, copyFails := false,
    entry := fun i => if i = 2 then { entryOk with createFails := true } else entryOk }

/-- An archive of three regular files and one `manifest.json`. -/
def archiveThreePlusManifest : ImportRequest :=
  { hasFile := true,
    archive := some [⟨"a.mp4", false, 11⟩, ⟨"manifest.json", false, 40⟩,
                     ⟨"sub/b.mp4", false, 12⟩, ⟨"c.txt", false, 13⟩] }

/-- An archive whose only entry is named `../evil.txt` (4 bytes). -/
def archiveDotDot : ImportRequest :=
  { hasFile := true, archive := some [⟨"../evil.txt", false, 4⟩] }

/-- An empty table. -/
def emptyStore : Store := ⟨[], 0⟩

/-! ## Lookup of a record -/

theorem dbFirst_error_of_inactive (env : Env) (s : Store) (id : Nat)
    (h : ∀ r ∈ s.rows, r.ID = id → r.DeletedAt ≠ none) :
    ∃ e, dbFirst env s id = .error e := by
  unfold dbFirst
  split
  · exact ⟨_, rfl⟩
  · have hnone : s.rows.find? (fun r => r.ID == id && r.active) = none := by
      rw [List.find?_eq_none]
      intro r hr
      have hr2 := h r hr
      cases hd : r.DeletedAt <;> simp_all [File.active]
    rw [hnone]
    exact ⟨_, rfl⟩

theorem dbFirst_ok_of_active (env : Env) (s : Store) (id : Nat)
    (hfirst : env.firstFails = false)
    (h : ∃ r ∈ s.rows, r.ID = id ∧ r.DeletedAt = none) :
    ∃ r, dbFirst env s id = .ok r ∧ r ∈ s.rows ∧ r.ID = id ∧ r.DeletedAt = none := by
  obtain ⟨r0, hr0, hid0, hd0⟩ := h
  unfold dbFirst
  rw [hfirst]
  cases hf : s.rows.find? (fun r => r.ID == id && r.active) with
  | none =>
    rw [List.find?_eq_none] at hf
    have := hf r0 hr0
    simp [File.active, hid0, hd0] at this
  | some r =>
    have hp := List.find?_some hf
    have hm := List.mem_of_find?_eq_some hf
    simp [File.active] at hp
    refine ⟨r, by simp, hm, hp.1, ?_⟩
    cases hd : r.DeletedAt <;> simp_all

theorem dbFirst_ok_inv (env : Env) (s : Store) (id : Nat) (r : File)
    (h : dbFirst env s id = .ok r) :
    env.firstFails = false ∧ r ∈ s.rows ∧ r.ID = id ∧ r.DeletedAt = none := by
  unfold dbFirst at h
  split at h
  · cases h
  · rename_i hff
    cases hf : s.rows.find? (fun r => r.ID == id && r.active) with
    | none => rw [hf] at h; cases h
    | some r1 =>
      rw [hf] at h
      have hp := List.find?_some hf
      have hm := List.mem_of_find?_eq_some hf
      simp [File.active] at hp
      injection h with h
      subst h
      refine ⟨by simpa using hff, hm, hp.1, ?_⟩
      cases hd : r1.DeletedAt <;> simp_all

/-- C1: for an id that identifies no active record, `GetFile`, `UpdateFile` and `DeleteFile`
each answer 404 (never 500), whatever the body and whatever the database does, and the
store is left as it was. -/
theorem missing_id_is_not_found (env : Env) (s : Store) (id : Nat) (body : Option JVal)
    (h : ∀ r ∈ s.rows, r.ID = id → r.DeletedAt ≠ none) :
    GetFile env s id = Response.notFound ∧
    UpdateFile env s id body = (s, Response.notFound) ∧
    DeleteFile env s id = (s, Response.notFound) := by
  obtain ⟨e, he⟩ := dbFirst_error_of_inactive env s id h
  simp [GetFile, UpdateFile, DeleteFile, he]

/-- Witness for C1: id 3 is soft-deleted in the sample table. -/
theorem missing_id_is_not_found_witness :
    (∀ r ∈ sampleStore.rows, r.ID = 3 → r.DeletedAt ≠ none) ∧
    GetFile sampleEnv sampleStore 3 = Response.notFound ∧
    UpdateFile sampleEnv sampleStore 3 bodyRename = (sampleStore, Response.notFound) ∧
    DeleteFile sampleEnv sampleStore 3 = (sampleStore, Response.notFound) :=
  ⟨by decide, missing_id_is_not_found sampleEnv sampleStore 3 bodyRename (by decide)⟩

/-! ## Soft delete -/

theorem filter_active_softDelete (id : Nat) (now : Time) (rows : List File) :
    (rows.map (softDelete id now)).filter File.active
      = (rows.filter File.active).filter (fun r => r.ID != id) := by
  induction rows with
  | nil => rfl
  | cons r rest ih =>
    by_cases hid : r.ID = id <;> cases hd : r.DeletedAt <;>
      simp [softDelete, File.active, List.filter_cons, hid, hd] at ih ⊢ <;> simp [ih]

theorem softDelete_inactive (id : Nat) (now : Time) (rows : List File) :
    ∀ r ∈ rows.map (softDelete id now), r.ID = id → r.DeletedAt ≠ none := by
  intro r hr
  rw [List.mem_map] at hr
  obtain ⟨r0, _, rfl⟩ := hr
  by_cases hid : r0.ID = id <;> cases hd : r0.DeletedAt <;>
    simp [softDelete, File.active, hid, hd]

theorem deleteFile_ok_inv (env : Env) (s : Store) (id : Nat)
    (hok : (DeleteFile env s id).2 = Response.deleted) :
    (∃ r ∈ s.rows, r.ID = id ∧ r.DeletedAt = none) ∧
    DeleteFile env s id
      = ({ s with rows := s.rows.map (softDelete id env.dbNow) }, Response.deleted) := by
  unfold DeleteFile at hok ⊢
  cases hf : dbFirst env s id with
  | error e => simp [hf] at hok
  | ok r =>
    obtain ⟨_, hmem, hid, hlive⟩ := dbFirst_ok_inv env s id r hf
    refine ⟨⟨r, hmem, hid, hlive⟩, ?_⟩
    simp only [hf] at hok ⊢
    unfold dbDelete at hok ⊢
    by_cases h1 : env.deleteFails = true
    · simp [h1] at hok
    · by_cases h2 : r.ID = 0
      · simp [h1, h2] at hok
      · have h3 : ¬ id = 0 := hid ▸ h2
        simp [h1, h3, hid]

/-- C2: after a successful `DeleteFile` (one answered with the confirmation), the id was
that of an active record, every active row with that id is marked deleted in place and no
row is removed; `GetFile` on the id answers 404, and `GetFiles` lists exactly the
records that were listed before except those with that id, each unchanged. -/
theorem delete_then_absent (env env1 env2 : Env) (s : Store) (id : Nat)
    (hok : (DeleteFile env s id).2 = Response.deleted) :
    (∃ r ∈ s.rows, r.ID = id ∧ r.DeletedAt = none) ∧
    (DeleteFile env s id).1 = { s with rows := s.rows.map (softDelete id env.dbNow) } ∧
    GetFile env1 (DeleteFile env s id).1 id = Response.notFound ∧
    GetFiles env2 (DeleteFile env s id).1
      = (if env2.findFails then Response.internalError
         else Response.listing ((s.rows.filter File.active).filter (fun r => r.ID != id))) ∧
    (DeleteFile env s id).1.rows.length = s.rows.length ∧
    (DeleteFile env s id).1.rows.map File.ID = s.rows.map File.ID ∧
    (∀ r ∈ s.rows, r.ID ≠ id → r ∈ (DeleteFile env s id).1.rows) := by
  obtain ⟨hactive, hdel⟩ := deleteFile_ok_inv env s id hok
  rw [hdel]
  refine ⟨hactive, rfl, ?_, ?_, ?_, ?_, ?_⟩
  · obtain ⟨e, he⟩ := dbFirst_error_of_inactive env1
      { s with rows := s.rows.map (softDelete id env.dbNow) } id
      (softDelete_inactive id env.dbNow s.rows)
    simp [GetFile, he]
  · unfold GetFiles dbFind
    by_cases hf : env2.findFails = true
    · simp [hf]
    · simp only [hf, filter_active_softDelete]
      simp
  · simp
  · simp only [List.map_map]
    apply List.map_congr_left
    intro r0 _
    simp only [Function.comp, softDelete]
    split <;> rfl
  · intro r0 hr0 hne
    simp only [List.mem_map]
    exact ⟨r0, hr0, by simp [softDelete, hne]⟩

/-- Witness for C2: deleting record 1 of the sample table. -/
theorem delete_then_absent_witness :
    (DeleteFile sampleEnv sampleStore 1).2 = Response.deleted ∧
    (∃ r ∈ sampleStore.rows, r.ID = 1 ∧ r.DeletedAt = none) ∧
    (DeleteFile sampleEnv sampleStore 1).1
      = { sampleStore with rows := sampleStore.rows.map (softDelete 1 sampleEnv.dbNow) } ∧
    GetFile sampleEnv (DeleteFile sampleEnv sampleStore 1).1 1 = Response.notFound ∧
    GetFiles sampleEnv (DeleteFile sampleEnv sampleStore 1).1
      = (if sampleEnv.findFails then Response.internalError
         else Response.listing
          ((sampleStore.rows.filter File.active).filter (fun r => r.ID != 1))) ∧
    (DeleteFile sampleEnv sampleStore 1).1.rows.length = sampleStore.rows.length ∧
    (DeleteFile sampleEnv sampleStore 1).1.rows.map File.ID = sampleStore.rows.map File.ID ∧
    (∀ r ∈ sampleStore.rows, r.ID ≠ 1 → r ∈ (DeleteFile sampleEnv sampleStore 1).1.rows) :=
  ⟨by decide, delete_then_absent sampleEnv sampleEnv sampleEnv sampleStore 1 (by decide)⟩

theorem delete_example :
    DeleteFile sampleEnv sampleStore 1
      = (⟨[{ rowA with DeletedAt := some sampleT1 }, rowB, rowGone], 3⟩, Response.deleted) ∧
    GetFiles sampleEnv (DeleteFile sampleEnv sampleStore 1).1 = Response.listing [rowB] ∧
    GetFiles sampleEnv sampleStore = Response.listing [rowA, rowB] := by
  decide

/-! ## Malformed update bodies -/

theorem decodeField_none_indep (parse : String → Option Time) (f g : File) (fld : Field)
    (v : JVal) (h : decodeField parse f fld v = none) : decodeField parse g fld v = none := by
  cases fld <;> cases v <;> simp [decodeField] at h ⊢ <;> exact h

theorem decodeMembers_none_indep (parse : String → Option Time) (ms : List (String × JVal)) :
    ∀ f g : File, decodeMembers parse f ms = none → decodeMembers parse g ms = none := by
  induction ms with
  | nil => intro f g h; simp [decodeMembers] at h
  | cons kv rest ih =>
    intro f g h
    obtain ⟨k, v⟩ := kv
    unfold decodeMembers at h ⊢
    cases hl : lookupField k with
    | none => simp only [hl] at h ⊢; exact ih f g h
    | some fld =>
      simp only [hl] at h ⊢
      cases hf : decodeField parse f fld v with
      | none => rw [decodeField_none_indep parse f g fld v hf]
      | some f1 =>
        rw [hf] at h
        cases hg : decodeField parse g fld v with
        | none => rfl
        | some g1 => exact ih f1 g1 h

theorem decodeInto_none_indep (parse : String → Option Time) (f g : File) (body : Option JVal)
    (h : decodeInto parse f body = none) : decodeInto parse g body = none := by
  cases body with
  | none => rfl
  | some v =>
    cases v with
    | obj ms => exact decodeMembers_none_indep parse ms f g h
    | null => simp [decodeInto] at h
    | _ => rfl

/-- C4 (counterexample): with no record 9 in the table, an update of id 9 whose body is
not JSON is answered 404, not 400. -/
theorem malformed_body_unknown_id_counterexample :
    decodeInto sampleEnv.parseRFC3339 File.zero bodyGarbage = none ∧
    (∀ r ∈ sampleStore.rows, r.ID ≠ 9) ∧
    UpdateFile sampleEnv sampleStore 9 bodyGarbage = (sampleStore, Response.notFound) ∧
    (UpdateFile sampleEnv sampleStore 9 bodyGarbage).2 ≠ Response.badRequest := by
  decide

/-- C4 (amended): the record is looked up before the body is decoded.  An update with an
undecodable body leaves the store unchanged and is answered 400 when the lookup returns
an active record with that id, and 404 when it does not. -/
theorem malformed_body_after_lookup (env : Env) (s : Store) (id : Nat) (body : Option JVal)
    (hbad : decodeInto env.parseRFC3339 File.zero body = none) :
    UpdateFile env s id body
      = (s, if env.firstFails = false ∧ s.rows.any (fun r => r.ID == id && r.active) = true
            then Response.badRequest else Response.notFound) := by
  unfold UpdateFile
  cases hf : dbFirst env s id with
  | error e =>
    have hcond : ¬ (env.firstFails = false ∧ s.rows.any (fun r => r.ID == id && r.active) = true) := by
      rintro ⟨h1, h2⟩
      rw [List.any_eq_true] at h2
      obtain ⟨r, hr, hp⟩ := h2
      simp [File.active] at hp
      have hd : r.DeletedAt = none := by
        cases hd : r.DeletedAt <;> simp_all
      obtain ⟨r1, hr1, _⟩ := dbFirst_ok_of_active env s id h1 ⟨r, hr, hp.1, hd⟩
      rw [hr1] at hf
      cases hf
    rw [if_neg hcond]
  | ok old =>
    obtain ⟨h1, hm, hid, hd⟩ := dbFirst_ok_inv env s id old hf
    have hcond : env.firstFails = false ∧ s.rows.any (fun r => r.ID == id && r.active) = true := by
      refine ⟨h1, ?_⟩
      rw [List.any_eq_true]
      exact ⟨old, hm, by simp [File.active, hid, hd]⟩
    rw [if_pos hcond]
    simp [decodeInto_none_indep env.parseRFC3339 File.zero old body hbad]

/-- Witness for C4 (amended): a string for `size`, sent to the active record 1. -/
theorem malformed_body_after_lookup_witness :
    decodeInto sampleEnv.parseRFC3339 File.zero bodyBadSize = none ∧
    UpdateFile sampleEnv sampleStore 1 bodyBadSize = (sampleStore, Response.badRequest) :=
  ⟨by decide, malformed_body_after_lookup sampleEnv sampleStore 1 bodyBadSize (by decide)⟩

/-! ## Decoding a body into a stored record -/

theorem decodeField_other (parse : String → Option Time) (f g : File) (fld : Field) (v : JVal)
    (h : decodeField parse f fld v = some g) (X : Field) (hX : X ≠ Field.DeletedAt)
    (hc : X ≠ fld ∨ v.isNull = true) : g.get X = f.get X := by
  cases fld <;> cases v <;> simp [decodeField] at h <;>
    obtain ⟨_, _, rfl⟩ := h <;>
    cases X <;> simp_all [File.get, JVal.isNull]

theorem decodeField_same (parse : String → Option Time) (f f1 g g1 : File) (fld : Field)
    (v : JVal) (h : decodeField parse f fld v = some g)
    (h1 : decodeField parse f1 fld v = some g1) (hv : v.isNull = false) :
    g.get fld = g1.get fld := by
  cases fld <;> cases v <;> simp [JVal.isNull] at hv <;>
    simp [decodeField] at h <;>
    obtain ⟨_, _, rfl⟩ := h <;>
    simp [decodeField] at h1 <;>
    obtain ⟨_, _, rfl⟩ := h1 <;>
    simp_all [File.get]

theorem decodeMembers_merge (parse : String → Option Time) (X : Field)
    (hX : X ≠ Field.DeletedAt) (ms : List (String × JVal)) :
    ∀ f f1 g g1 : File, decodeMembers parse f ms = some g →
      decodeMembers parse f1 ms = some g1 →
      ((f.get X = f1.get X ∨ carriesList X ms = true) → g.get X = g1.get X) ∧
      (carriesList X ms = false → g.get X = f.get X) := by
  induction ms with
  | nil =>
    intro f f1 g g1 h h1
    simp [decodeMembers] at h h1
    subst h; subst h1
    simp [carriesList]
  | cons kv rest ih =>
    intro f f1 g g1 h h1
    obtain ⟨k, v⟩ := kv
    unfold decodeMembers at h h1
    cases hl : lookupField k with
    | none =>
      simp only [hl] at h h1
      have hc : carriesList X ((k, v) :: rest) = carriesList X rest := by
        simp [carriesList, hl]
      rw [hc]
      exact ih f f1 g g1 h h1
    | some fld =>
      simp only [hl] at h h1
      cases hf : decodeField parse f fld v with
      | none => rw [hf] at h; cases h
      | some f2 =>
        cases hf1 : decodeField parse f1 fld v with
        | none => rw [hf1] at h1; cases h1
        | some f3 =>
          rw [hf] at h
          rw [hf1] at h1
          have hrec := ih f2 f3 g g1 h h1
          by_cases hhere : fld = X ∧ v.isNull = false
          · obtain ⟨hfld, hnn⟩ := hhere
            subst hfld
            have hsame := decodeField_same parse f f1 f2 f3 fld v hf hf1 hnn
            have hc : carriesList fld ((k, v) :: rest) = true := by
              simp [carriesList, hl, hnn]
            rw [hc]
            exact ⟨fun _ => hrec.1 (Or.inl hsame), fun hcontra => by cases hcontra⟩
          · have hcond : X ≠ fld ∨ v.isNull = true := by
              by_cases hx : X = fld
              · right
                cases hv : v.isNull
                · exact absurd ⟨hx.symm, hv⟩ hhere
                · rfl
              · exact Or.inl hx
            have h2 := decodeField_other parse f f2 fld v hf X hX hcond
            have h3 := decodeField_other parse f1 f3 fld v hf1 X hX hcond
            have hc : carriesList X ((k, v) :: rest) = carriesList X rest := by
              have hfalse : (lookupField k == some X && !v.isNull) = false := by
                rcases hcond with hne | hnull
                · have : (some fld == some X) = false := by
                    simp [Ne.symm hne]
                  simp [hl, this]
                · simp [hnull]
              simp only [carriesList, List.any_cons, hfalse, Bool.false_or]
            rw [hc]
            refine ⟨fun hor => hrec.1 ?_, fun hno => ?_⟩
            · rcases hor with heq | hcar
              · left; rw [h2, h3]; exact heq
              · exact Or.inr hcar
            · rw [hrec.2 hno, h2]

theorem decodeInto_merge (parse : String → Option Time) (X : Field) (hX : X ≠ Field.DeletedAt)
    (body : Option JVal) (old new fresh : File)
    (h : decodeInto parse old body = some new)
    (h1 : decodeInto parse File.zero body = some fresh) :
    new.get X = if carries X body = true then fresh.get X else old.get X := by
  cases body with
  | none => simp [decodeInto] at h
  | some v =>
    cases v with
    | obj ms =>
      have hm := decodeMembers_merge parse X hX ms old File.zero new fresh h h1
      simp only [carries]
      by_cases hc : carriesList X ms = true
      · rw [if_pos hc]
        exact hm.1 (Or.inr hc)
      · rw [if_neg hc]
        exact hm.2 (by simpa using hc)
    | null =>
      simp [decodeInto] at h
      subst h
      simp [carries]
    | _ => simp [decodeInto] at h

theorem find_map_replace (p : File → Bool) (f1 : File) (hp : p f1 = true) (l : List File)
    (hany : l.any p = true) :
    (l.map (fun r => if p r then f1 else r)).find? p = some f1 := by
  induction l with
  | nil => simp at hany
  | cons r rest ih =>
    by_cases hr : p r = true
    · simp [List.find?_cons, hr, hp]
    · have hr2 : p r = false := by simpa using hr
      have hrest : rest.any p = true := by simpa [List.any_cons, hr2] using hany
      have hmap : (if p r = true then f1 else r) = r := by simp [hr2]
      rw [List.map_cons, hmap, List.find?_cons_of_neg _ (by simp [hr2])]
      exact ih hrest

theorem dbSave_active (env : Env) (s : Store) (f : File) (hsave : env.saveFails = false)
    (hid : f.ID ≠ 0) (hany : s.rows.any (fun r => r.ID == f.ID && r.active) = true) :
    dbSave env s f
      = .ok ({ s with rows := s.rows.map (overwriteActive f.ID { f with UpdatedAt := env.dbNow }) },
             { f with UpdatedAt := env.dbNow }) := by
  unfold dbSave
  rw [hsave]
  simp only [Bool.false_eq_true, if_false, hid, hany, if_true]

/-! ## Update -/

/-- C3 (counterexample): record 1 is stored with path `uploads/a.txt` and size 3; after the
update with body `{"name": "renamed"}` it is read back with that path and size, while the
record representation decoded from the body alone has the empty path and size 0. -/
theorem update_keeps_omitted_fields_counterexample :
    UpdateFile sampleEnv sampleStore 1 bodyRename
      = (⟨[{ rowA with Name := "renamed", UpdatedAt := sampleT1 }, rowB, rowGone], 3⟩,
         Response.json { rowA with Name := "renamed", UpdatedAt := sampleT1 }) ∧
    GetFile sampleEnv (UpdateFile sampleEnv sampleStore 1 bodyRename).1 1
      = Response.json { rowA with Name := "renamed", UpdatedAt := sampleT1 } ∧
    decodeInto sampleEnv.parseRFC3339 File.zero bodyRename
      = some { File.zero with Name := "renamed" } ∧
    File.Path { rowA with Name := "renamed", UpdatedAt := sampleT1 } = "uploads/a.txt" ∧
    File.Path { File.zero with Name := "renamed" } = "" ∧
    File.Size { rowA with Name := "renamed", UpdatedAt := sampleT1 } = 3 ∧
    File.Size { File.zero with Name := "renamed" } = 0 := by
  decide

/-- C3 (amended): update merges the body into the stored record.  When the lookup returns
the stored record, the body decodes, and the decoded record still has the id and no
deletion marker, a successful `UpdateFile` followed by `GetFile` returns the stored
record with the body decoded onto it: each of name, path, size, recorded_at, uuid and
duration equals the value decoded from the body when the body carries a non-null value
for it, and the previously stored value when it does not. -/
theorem update_then_get_merges (env env1 : Env) (s : Store) (id : Nat) (body : Option JVal)
    (old new : File) (hid0 : id ≠ 0)
    (hold : dbFirst env s id = .ok old)
    (hdec : decodeInto env.parseRFC3339 old body = some new)
    (hkeep : new.ID = id) (hlive : new.DeletedAt = none)
    (hsave : env.saveFails = false) (hget : env1.firstFails = false) :
    ∃ fresh, decodeInto env.parseRFC3339 File.zero body = some fresh ∧
      (UpdateFile env s id body).2 = Response.json { new with UpdatedAt := env.dbNow } ∧
      GetFile env1 (UpdateFile env s id body).1 id
        = Response.json { new with UpdatedAt := env.dbNow } ∧
      ∀ X ∈ mutableFields, File.get { new with UpdatedAt := env.dbNow } X
        = if carries X body = true then fresh.get X else old.get X := by
  cases hfr : decodeInto env.parseRFC3339 File.zero body with
  | none =>
    rw [decodeInto_none_indep env.parseRFC3339 File.zero old body hfr] at hdec
    cases hdec
  | some fresh =>
    obtain ⟨_, hmem, holdid, holdlive⟩ := dbFirst_ok_inv env s id old hold
    subst hkeep
    have hany : s.rows.any (fun r => r.ID == new.ID && r.active) = true := by
      rw [List.any_eq_true]
      exact ⟨old, hmem, by simp [File.active, holdid, holdlive]⟩
    have hupd : UpdateFile env s new.ID body
        = ({ s with rows := s.rows.map (overwriteActive new.ID { new with UpdatedAt := env.dbNow }) },
           Response.json { new with UpdatedAt := env.dbNow }) := by
      unfold UpdateFile
      simp only [hold, hdec, dbSave_active env s new hsave hid0 hany]
    refine ⟨fresh, rfl, ?_, ?_, ?_⟩
    · rw [hupd]
    · rw [hupd]
      have hfind := find_map_replace (fun r => r.ID == new.ID && r.active)
        { new with UpdatedAt := env.dbNow } (by simp [File.active, hlive]) s.rows hany
      unfold GetFile dbFirst
      simp only [hget, Bool.false_eq_true, if_false]
      have hrows : s.rows.map (overwriteActive new.ID { new with UpdatedAt := env.dbNow })
          = s.rows.map (fun r => if (fun r => r.ID == new.ID && r.active) r = true
              then { new with UpdatedAt := env.dbNow } else r) := rfl
      simp only [hrows, hfind]
    · intro X hX
      have hne : X ≠ Field.DeletedAt := by
        rintro rfl
        simp [mutableFields] at hX
      rw [← decodeInto_merge env.parseRFC3339 X hne body old new fresh hdec hfr]
      simp only [mutableFields, List.mem_cons, List.mem_singleton, List.not_mem_nil, or_false] at hX
      rcases hX with rfl | rfl | rfl | rfl | rfl | rfl <;> rfl

/-- Witness for C3 (amended): renaming record 1 of the sample table. -/
theorem update_then_get_merges_witness :
    ∃ fresh, decodeInto sampleEnv.parseRFC3339 File.zero bodyRename = some fresh ∧
      (UpdateFile sampleEnv sampleStore 1 bodyRename).2
        = Response.json { ({ rowA with Name := "renamed" } : File) with UpdatedAt := sampleEnv.dbNow } ∧
      GetFile sampleEnv (UpdateFile sampleEnv sampleStore 1 bodyRename).1 1
        = Response.json { ({ rowA with Name := "renamed" } : File) with UpdatedAt := sampleEnv.dbNow } ∧
      ∀ X ∈ mutableFields,
        File.get { ({ rowA with Name := "renamed" } : File) with UpdatedAt := sampleEnv.dbNow } X
        = if carries X bodyRename = true then fresh.get X else rowA.get X :=
  update_then_get_merges sampleEnv sampleEnv sampleStore 1 bodyRename rowA
    { rowA with Name := "renamed" } (by decide) rfl rfl rfl rfl rfl rfl

/-- C9 (the code at the failing input): an update of record 1 whose body is
`{"ID": 2, "name": "x"}` leaves record 1 as it was and overwrites record 2 with the
content of record 1 renamed to `x`; the response carries id 2. -/
theorem update_with_id_key_overwrites_other_record :
    UpdateFile sampleEnv sampleStore 1 bodyOtherId
      = (⟨[rowA, { rowA with ID := 2, Name := "x", UpdatedAt := sampleT1 }, rowGone], 3⟩,
         Response.json { rowA with ID := 2, Name := "x", UpdatedAt := sampleT1 }) ∧
    GetFile sampleEnv (UpdateFile sampleEnv sampleStore 1 bodyOtherId).1 1 = Response.json rowA ∧
    GetFile sampleEnv sampleStore 2 = Response.json rowB ∧
    GetFile sampleEnv (UpdateFile sampleEnv sampleStore 1 bodyOtherId).1 2
      = Response.json { rowA with ID := 2, Name := "x", UpdatedAt := sampleT1 } := by
  decide

/-! ## Upload -/

theorem createFile_redirect_inv (env : UploadEnv) (s : Store) (r : CreateRequest)
    (hok : (CreateFile env s r).resp = Response.redirect "/files") :
    ∃ header, r.file = some header ∧ env.osCreateFails = false ∧ env.copyFails = false ∧
      env.createFails = false := by
  unfold CreateFile at hok
  cases hfile : r.file with
  | none => simp [hfile] at hok
  | some header =>
    refine ⟨header, rfl, ?_, ?_, ?_⟩
    · cases h : env.osCreateFails
      · rfl
      · simp [hfile, h] at hok
    · cases h : env.copyFails
      · rfl
      · cases h1 : env.osCreateFails <;> simp [hfile, h, h1] at hok
    · cases h : env.createFails
      · rfl
      · cases h1 : env.osCreateFails <;> cases h2 : env.copyFails <;>
          simp [hfile, h, h1, h2, dbCreate] at hok

theorem createFile_ok (env : UploadEnv) (s : Store) (r : CreateRequest) (header : FileHeader)
    (hfile : r.file = some header) (hcreate : env.osCreateFails = false)
    (hcopy : env.copyFails = false) (hdb : env.createFails = false) :
    CreateFile env s r =
      ⟨⟨s.rows ++ [{ File.zero with
          ID := s.seq + 1, CreatedAt := env.dbNow, UpdatedAt := env.dbNow,
          Name := if r.name = "" then header.Filename else r.name,
          Path := "uploads/" ++ header.Filename, Size := header.Size,
          RecordedAt := if r.recorded_at ≠ "" then (timeParse r.recorded_at).getD env.now
                        else env.now }], s.seq + 1⟩,
       ["uploads/" ++ header.Filename], Response.redirect "/files"⟩ := by
  unfold CreateFile
  simp only [hfile, hcreate, hcopy, hdb, dbCreate, Bool.false_eq_true, if_false]
  cases hp : timeParse r.recorded_at <;> simp [File.zero, Time.zero]

/-- C5: whenever `CreateFile` ends in the redirect to `/files`, it has added exactly one
record, whose name is the `name` form value when that is non-empty and the original
filename otherwise, whose path is `uploads/` followed by the original filename, and whose
size is the size the upload reports; the file was created at that path. -/
theorem create_name_path_size (env : UploadEnv) (s : Store) (r : CreateRequest)
    (hok : (CreateFile env s r).resp = Response.redirect "/files") :
    ∃ header row, r.file = some header ∧
      (CreateFile env s r).store.rows = s.rows ++ [row] ∧
      (r.name ≠ "" → row.Name = r.name) ∧
      (r.name = "" → row.Name = header.Filename) ∧
      row.Path = "uploads/" ++ header.Filename ∧
      row.Size = header.Size ∧
      (CreateFile env s r).created = [row.Path] := by
  obtain ⟨header, hfile, h1, h2, h3⟩ := createFile_redirect_inv env s r hok
  rw [createFile_ok env s r header hfile h1 h2 h3]
  refine ⟨header, _, hfile, rfl, ?_, ?_, rfl, rfl, rfl⟩
  · intro h; simp [h]
  · intro h; simp [h]

/-- Witness for C5: an upload with a `name` field. -/
theorem create_name_path_size_witness :
    ∃ header row, uploadNamed.file = some header ∧
      (CreateFile sampleUploadEnv sampleStore uploadNamed).store.rows
        = sampleStore.rows ++ [row] ∧
      (uploadNamed.name ≠ "" → row.Name = uploadNamed.name) ∧
      (uploadNamed.name = "" → row.Name = header.Filename) ∧
      row.Path = "uploads/" ++ header.Filename ∧
      row.Size = header.Size ∧
      (CreateFile sampleUploadEnv sampleStore uploadNamed).created = [row.Path] :=
  create_name_path_size sampleUploadEnv sampleStore uploadNamed (by decide)

theorem isDigit_digitChar (n : Nat) (h : n < 10) : isDigit (digitChar n) = true := by
  interval_cases n <;> decide

theorem digitVal_digitChar (n : Nat) (h : n < 10) : digitVal (digitChar n) = n := by
  interval_cases n <;> decide

theorem getYear_fourDigits (y : Nat) (hy : y < 10000) (rest : List Char) :
    getYear (fourDigits y ++ rest) = some (y, rest) := by
  have e1 := isDigit_digitChar (y / 1000) (by omega)
  have e2 := isDigit_digitChar (y / 100 % 10) (by omega)
  have e3 := isDigit_digitChar (y / 10 % 10) (by omega)
  have e4 := isDigit_digitChar (y % 10) (by omega)
  have v1 := digitVal_digitChar (y / 1000) (by omega)
  have v2 := digitVal_digitChar (y / 100 % 10) (by omega)
  have v3 := digitVal_digitChar (y / 10 % 10) (by omega)
  have v4 := digitVal_digitChar (y % 10) (by omega)
  simp only [fourDigits, List.cons_append, List.nil_append, getYear, e1, e2, e3, e4, v1, v2, v3, v4,
    Bool.and_self, if_true]
  congr 2
  omega

theorem getnum_twoDigits (n : Nat) (hn : n < 100) (fixed : Bool) (rest : List Char) :
    getnum (twoDigits n ++ rest) fixed = some (n, rest) := by
  have e1 := isDigit_digitChar (n / 10) (by omega)
  have e2 := isDigit_digitChar (n % 10) (by omega)
  have v1 := digitVal_digitChar (n / 10) (by omega)
  have v2 := digitVal_digitChar (n % 10) (by omega)
  simp only [twoDigits, List.cons_append, List.nil_append, getnum, e1, e2, v1, v2,
    Bool.not_true, Bool.false_eq_true, if_false]
  congr 2
  omega

theorem timeParse_stampText (y mo d h mi : Nat) (hv : validStamp y mo d h mi) :
    timeParse (stampText y mo d h mi) = some ⟨y, mo, d, h, mi, 0, 0⟩ := by
  obtain ⟨hy, hmo1, hmo2, hd1, hd2, hh, hmi⟩ := hv
  have hd3 : d < 100 := by
    refine lt_of_le_of_lt hd2 ?_
    unfold daysIn
    split
    · split <;> omega
    · split <;> omega
  have hmi0 : twoDigits mi = twoDigits mi ++ [] := by simp
  have c1 : ¬ (mo = 0 ∨ 12 < mo) := by omega
  have c2 : ¬ (24 ≤ h) := by omega
  have c3 : ¬ (60 ≤ mi) := by omega
  have c4 : ¬ (d < 1 ∨ daysIn mo y < d) := by omega
  simp only [timeParse, stampText, String.toList]
  rw [hmi0]
  simp only [getYear_fourDigits y hy, getnum_twoDigits mo (by omega), getnum_twoDigits d hd3,
    getnum_twoDigits h (by omega), getnum_twoDigits mi (by omega), skipChar, if_true,
    Option.some_bind, c1, c2, c3, c4, if_false, ne_eq, not_true_eq_false]

theorem stampText_ne_empty (y mo d h mi : Nat) : stampText y mo d h mi ≠ "" := by
  intro h
  have := congrArg String.length h
  simp [stampText, fourDigits, String.length] at this

/-- C6: when the file part is present and writing the file and the record succeed, the
upload ends in the redirect whatever `recorded_at` holds, and the one record it adds has
as `recorded_at`: the instant a valid `YYYY-MM-DDTHH:MM` text denotes (2024-03-01 10:00
for `2024-03-01T10:00`), and the current time when the value is empty (or absent) or
does not parse. -/
theorem create_recorded_at (env : UploadEnv) (s : Store) (r : CreateRequest)
    (header : FileHeader) (hfile : r.file = some header)
    (hcreate : env.osCreateFails = false) (hcopy : env.copyFails = false)
    (hdb : env.createFails = false) :
    (CreateFile env s r).resp = Response.redirect "/files" ∧
    ∃ row, (CreateFile env s r).store.rows = s.rows ++ [row] ∧
      (∀ y mo d h mi, validStamp y mo d h mi → r.recorded_at = stampText y mo d h mi →
        row.RecordedAt = ⟨y, mo, d, h, mi, 0, 0⟩) ∧
      (r.recorded_at = "2024-03-01T10:00" → row.RecordedAt = ⟨2024, 3, 1, 10, 0, 0, 0⟩) ∧
      (r.recorded_at = "" ∨ timeParse r.recorded_at = none → row.RecordedAt = env.now) := by
  rw [createFile_ok env s r header hfile hcreate hcopy hdb]
  refine ⟨rfl, _, rfl, ?_, ?_, ?_⟩
  · intro y mo d h mi hv hr
    simp only [hr, timeParse_stampText y mo d h mi hv, Option.getD_some]
    simp [stampText_ne_empty]
  · intro hr
    have hp : timeParse "2024-03-01T10:00" = some ⟨2024, 3, 1, 10, 0, 0, 0⟩ := by decide
    simp only [hr, hp, Option.getD_some]
    simp
  · intro hr
    rcases hr with hr | hr
    · simp [hr]
    · simp [hr]

/-- Witness for C6: an upload with `recorded_at=2024-03-01T10:00`. -/
theorem create_recorded_at_witness :
    (CreateFile sampleUploadEnv sampleStore uploadNamed).resp = Response.redirect "/files" ∧
    ∃ row, (CreateFile sampleUploadEnv sampleStore uploadNamed).store.rows
        = sampleStore.rows ++ [row] ∧
      (∀ y mo d h mi, validStamp y mo d h mi →
        uploadNamed.recorded_at = stampText y mo d h mi →
        row.RecordedAt = ⟨y, mo, d, h, mi, 0, 0⟩) ∧
      (uploadNamed.recorded_at = "2024-03-01T10:00" →
        row.RecordedAt = ⟨2024, 3, 1, 10, 0, 0, 0⟩) ∧
      (uploadNamed.recorded_at = "" ∨ timeParse uploadNamed.recorded_at = none →
        row.RecordedAt = sampleUploadEnv.now) :=
  create_recorded_at sampleUploadEnv sampleStore uploadNamed ⟨"clip.mp4", 10⟩ rfl rfl rfl rfl

/-! ## Import -/

theorem importEntry_store (env : EntryEnv) (f : ZipEntry) (st : Store × List String) :
    (importEntry env f st).1
      = if f.eligible && env.extracts && env.stores
        then ⟨st.1.rows ++ [{ importedRecord env f with ID := st.1.seq + 1 }], st.1.seq + 1⟩
        else st.1 := by
  unfold importEntry ZipEntry.eligible EntryEnv.extracts EntryEnv.stores
  cases h0 : (f.IsDir || f.Name == "manifest.json") <;> cases h1 : env.openFails <;>
    cases h2 : env.mkdirFails <;> cases h3 : env.createFails <;> cases h4 : env.copyFails <;>
    cases h5 : env.dbCreateFails <;>
    simp [dbCreate, importedRecord, File.zero, Time.zero]

theorem importLoop_rows (env : Nat → EntryEnv) (files : List ZipEntry) :
    ∀ (i : Nat) (st : Store × List String),
      ∃ new, (importLoop env i files st).1.rows = st.1.rows ++ new ∧
        new.map File.withoutID
          = (storedEntries env i files).map (fun p => importedRecord (env p.1) p.2) ∧
        new.map File.ID = List.range' (st.1.seq + 1) new.length := by
  induction files with
  | nil =>
    intro i st
    exact ⟨[], by simp [importLoop], by simp [storedEntries], by simp⟩
  | cons f fs ih =>
    intro i st
    obtain ⟨new, hrows, hmap, hids⟩ := ih (i + 1) (importEntry (env i) f st)
    have hstep := importEntry_store (env i) f st
    unfold importLoop
    by_cases hc : (f.eligible && (env i).extracts && (env i).stores) = true
    · rw [if_pos hc] at hstep
      refine ⟨{ importedRecord (env i) f with ID := st.1.seq + 1 } :: new, ?_, ?_, ?_⟩
      · rw [hrows, hstep]
        simp
      · have hfil : storedEntries env i (f :: fs) = (i, f) :: storedEntries env (i + 1) fs := by
          simp only [storedEntries, List.enumFrom_cons]
          rw [List.filter_cons_of_pos (by simpa using hc)]
        rw [hfil, List.map_cons, List.map_cons, hmap]
        rfl
      · rw [hstep] at hids
        simp only [List.map_cons, List.length_cons, hids]
        rw [List.range'_succ]
    · rw [if_neg hc] at hstep
      refine ⟨new, ?_, ?_, ?_⟩
      · rw [hrows, hstep]
      · have hfil : storedEntries env i (f :: fs) = storedEntries env (i + 1) fs := by
          simp only [storedEntries, List.enumFrom_cons]
          rw [List.filter_cons_of_neg (by simpa using hc)]
        rw [hfil, hmap]
      · rw [hstep] at hids
        exact hids

theorem createImport_ok (env : ImportEnv) (s : Store) (r : ImportRequest) (files : List ZipEntry)
    (hfile : r.hasFile = true) (htemp : env.createTempFails = false)
    (hcreate : env.osCreateFails = false) (hcopy : env.copyFails = false)
    (harchive : r.archive = some files) :
    CreateImport env s r
      = ⟨(importLoop env.entry 0 files (s, [])).1, (importLoop env.entry 0 files (s, [])).2,
         Response.redirect "/files"⟩ := by
  unfold CreateImport
  simp [hfile, htemp, hcreate, hcopy, harchive]

/-- C8: once the upload is received and opens as an archive, `CreateImport` ends in the
redirect to `/files` whatever fails for the entries, and the records it adds are, in
archive order and with fresh consecutive ids, exactly the records of the entries that are
eligible (not a directory, not `manifest.json`), whose extraction succeeds and whose
record creation succeeds: a failing entry gets no record and stops no other entry. -/
theorem import_is_best_effort (env : ImportEnv) (s : Store) (r : ImportRequest)
    (files : List ZipEntry) (hfile : r.hasFile = true)
    (htemp : env.createTempFails = false) (hcreate : env.osCreateFails = false)
    (hcopy : env.copyFails = false) (harchive : r.archive = some files) :
    (CreateImport env s r).resp = Response.redirect "/files" ∧
    ∃ new, (CreateImport env s r).store.rows = s.rows ++ new ∧
      new.map File.withoutID
        = (storedEntries env.entry 0 files).map (fun p => importedRecord (env.entry p.1) p.2) ∧
      new.map File.ID = List.range' (s.seq + 1) new.length := by
  rw [createImport_ok env s r files hfile htemp hcreate hcopy harchive]
  exact ⟨rfl, importLoop_rows env.entry files 0 (s, [])⟩

/-- Witness for C8: the file of the third entry (`sub/b.mp4`) cannot be created. -/
theorem import_is_best_effort_witness :
    (CreateImport thirdEntryFails sampleStore archiveThreePlusManifest).resp
      = Response.redirect "/files" ∧
    ∃ new, (CreateImport thirdEntryFails sampleStore archiveThreePlusManifest).store.rows
        = sampleStore.rows ++ new ∧
      new.map File.withoutID
        = (storedEntries thirdEntryFails.entry 0
            [⟨"a.mp4", false, 11⟩, ⟨"manifest.json", false, 40⟩,
             ⟨"sub/b.mp4", false, 12⟩, ⟨"c.txt", false, 13⟩]).map
            (fun p => importedRecord (thirdEntryFails.entry p.1) p.2) ∧
      new.map File.ID = List.range' (sampleStore.seq + 1) new.length :=
  import_is_best_effort thirdEntryFails sampleStore archiveThreePlusManifest _ rfl rfl rfl rfl rfl

theorem import_third_entry_fails_example :
    (CreateImport thirdEntryFails emptyStore archiveThreePlusManifest).store.rows.map
        (fun r => (r.ID, r.Name, r.Path, r.Size))
      = [(1, "a.mp4", "uploads/a.mp4", 11), (2, "c.txt", "uploads/c.txt", 13)] ∧
    (CreateImport thirdEntryFails emptyStore archiveThreePlusManifest).resp
      = Response.redirect "/files" := by
  decide

theorem storedEntries_all_ok (env : Nat → EntryEnv) (files : List ZipEntry) :
    ∀ i : Nat,
      (∀ j, i ≤ j → j < i + files.length → (env j).extracts = true ∧ (env j).stores = true) →
      (storedEntries env i files).map Prod.snd = files.filter ZipEntry.eligible := by
  induction files with
  | nil => intro i _; simp [storedEntries]
  | cons f fs ih =>
    intro i hall
    have hi := hall i (le_refl i) (by simp)
    have hrest := ih (i + 1) (fun j h1 h2 => hall j (by omega) (by simp at h2 ⊢; omega))
    simp only [storedEntries] at hrest ⊢
    simp only [List.enumFrom_cons, List.filter_cons, hi.1, hi.2, Bool.and_true]
    by_cases he : f.eligible = true
    · simp only [he, if_true, List.map_cons, hrest]
    · simp only [he, if_false]
      exact hrest

/-- C7: when the upload is received, opens as an archive, and every entry extracts and
stores without failure, `CreateImport` adds exactly one record for each entry that is
neither a directory entry nor named `manifest.json`, in archive order, and none for the
other entries; each record has the entry's name, its uncompressed size, duration 0 and
the empty uuid, and no record is named `manifest.json`. -/
theorem import_one_record_per_entry (env : ImportEnv) (s : Store) (r : ImportRequest)
    (files : List ZipEntry) (hfile : r.hasFile = true)
    (htemp : env.createTempFails = false) (hcreate : env.osCreateFails = false)
    (hcopy : env.copyFails = false) (harchive : r.archive = some files)
    (hall : ∀ i, i < files.length →
      (env.entry i).extracts = true ∧ (env.entry i).stores = true) :
    ∃ new, (CreateImport env s r).store.rows = s.rows ++ new ∧
      new.length = (files.filter ZipEntry.eligible).length ∧
      new.map (fun x => (x.Name, x.Size, x.Duration, x.UUID))
        = (files.filter ZipEntry.eligible).map (fun f => (f.Name, f.size, (0 : Int), "")) ∧
      ∀ x ∈ new, x.Name ≠ "manifest.json" := by
  rw [createImport_ok env s r files hfile htemp hcreate hcopy harchive]
  obtain ⟨new, hrows, hmap, _⟩ := importLoop_rows env.entry files 0 (s, [])
  have hsnd := storedEntries_all_ok env.entry files 0
    (fun j _ h2 => hall j (by simpa using h2))
  have hfields : new.map (fun x => (x.Name, x.Size, x.Duration, x.UUID))
      = (files.filter ZipEntry.eligible).map (fun f => (f.Name, f.size, (0 : Int), "")) := by
    have h1 : new.map (fun x => (x.Name, x.Size, x.Duration, x.UUID))
        = (new.map File.withoutID).map (fun x => (x.Name, x.Size, x.Duration, x.UUID)) := by
      rw [List.map_map]
      rfl
    rw [h1, hmap, ← hsnd, List.map_map, List.map_map]
    rfl
  refine ⟨new, hrows, ?_, hfields, ?_⟩
  · have := congrArg List.length hfields
    simpa using this
  · intro x hx hname
    have hmem : (x.Name, x.Size, x.Duration, x.UUID)
        ∈ new.map (fun x => (x.Name, x.Size, x.Duration, x.UUID)) :=
      List.mem_map_of_mem _ hx
    rw [hfields, List.mem_map] at hmem
    obtain ⟨f, hf, heq⟩ := hmem
    have hfn : f.Name = "manifest.json" := by
      have := congrArg Prod.fst heq
      simpa [hname] using this
    have hel := (List.mem_filter.mp hf).2
    simp [ZipEntry.eligible, hfn] at hel

/-- Witness for C7: three regular files and one `manifest.json`, nothing failing. -/
theorem import_one_record_per_entry_witness :
    ∃ new, (CreateImport sampleImportEnv sampleStore archiveThreePlusManifest).store.rows
        = sampleStore.rows ++ new ∧
      new.length = (([⟨"a.mp4", false, 11⟩, ⟨"manifest.json", false, 40⟩,
        ⟨"sub/b.mp4", false, 12⟩, ⟨"c.txt", false, 13⟩] : List ZipEntry).filter
          ZipEntry.eligible).length ∧
      new.map (fun x => (x.Name, x.Size, x.Duration, x.UUID))
        = (([⟨"a.mp4", false, 11⟩, ⟨"manifest.json", false, 40⟩,
            ⟨"sub/b.mp4", false, 12⟩, ⟨"c.txt", false, 13⟩] : List ZipEntry).filter
              ZipEntry.eligible).map (fun f => (f.Name, f.size, (0 : Int), "")) ∧
      ∀ x ∈ new, x.Name ≠ "manifest.json" :=
  import_one_record_per_entry sampleImportEnv sampleStore archiveThreePlusManifest _
    rfl rfl rfl rfl rfl (fun _ _ => ⟨rfl, rfl⟩)

theorem import_three_plus_manifest_example :
    (CreateImport sampleImportEnv emptyStore archiveThreePlusManifest).store.rows.map
        (fun r => (r.ID, r.Name, r.Path, r.Size, r.Duration, r.UUID))
      = [(1, "a.mp4", "uploads/a.mp4", 11, 0, ""), (2, "sub/b.mp4", "uploads/sub/b.mp4", 12, 0, ""),
         (3, "c.txt", "uploads/c.txt", 13, 0, "")] := by
  decide

/-- C10 (the code at the failing input): for an archive whose entry is named `../evil.txt`,
`filepath.Join("uploads", f.Name)` is `evil.txt`; the entry is written there and the record
carries that path, which is neither `uploads` nor below it.  A leading `/` alone stays
below `uploads`. -/
theorem import_dotdot_entry_leaves_uploads :
    filepathJoin "uploads" "../evil.txt" = "evil.txt" ∧
    CreateImport sampleImportEnv emptyStore archiveDotDot
      = ⟨⟨[{ File.zero with
              ID := 1, CreatedAt := sampleT1, UpdatedAt := sampleT1, Name := "../evil.txt",
              Path := "evil.txt", Size := 4, RecordedAt := sampleT1 }], 1⟩,
         ["evil.txt"], Response.redirect "/files"⟩ ∧
    underUploads "evil.txt" = false ∧
    filepathJoin "uploads" "../../etc/passwd" = "../etc/passwd" ∧
    underUploads "../etc/passwd" = false ∧
    filepathJoin "uploads" "/etc/passwd" = "uploads/etc/passwd" ∧
    underUploads "uploads/etc/passwd" = true := by
  decide

end GolangFiles
